import Mathlib

/-!
Verification of the transactions-dashboard data pipeline (`src/app.py`).

The file shallowly embeds the data-level content of the normalizer
(`load_and_clean_data`, modelled at column level plus the categorical
translation) and of the six aggregation functions (`get_kpi_metrics`,
`make_bar_trend`, `make_net_income_chart`, `make_heatmap`,
`make_remarks_chart`, `make_transaction_type_chart`).

Pandas conventions embedded here, each taken from the library semantics the
source relies on:
* `groupby(key)` with the default `sort=True` enumerates groups in ascending
  key order (sorted distinct keys);
* `Series - Series` aligns on the sorted union of the two indexes and yields
  a missing value (NaN, here `Option.none`) wherever a key is present on one
  side only; `Series.sum` skips missing values;
* `sort_values(col, ascending=False)` computes a stable ascending argsort
  and reverses it (pandas `nargsort`), so tied rows appear in reverse of
  their previous order (numpy's small-array quicksort is insertion sort,
  which is stable);
* `DataFrame.drop(columns=...)` without `errors="ignore"` raises `KeyError`
  when any listed column is absent;
* `DataFrame.rename(columns=...)` silently ignores absent source columns;
* `Series.replace(dict)` maps values found in the dict and keeps all other
  values unchanged.

Timestamps are encoded by their fields; `Timestamp.serial` packs the six
fields into one natural number whose order coincides with chronological
order (each lower field is bounded by 100), exactly as the textual
`YYYY.MM.DD HH:MM:SS` format sorts. Month keys `"YYYY-MM"` are encoded as
`year * 100 + month`, which is order- and equality-faithful to the string
form produced by `dt.to_period('M').astype(str)`.
-/

/-- A parsed `거래 일시` timestamp (format `YYYY.MM.DD HH:MM:SS`). -/
structure Timestamp where
  year : Nat
  month : Nat
  day : Nat
  hour : Nat
  minute : Nat
  second : Nat
deriving DecidableEq, Repr

/-- Order-faithful packing of a timestamp into one natural number
(every field below `year` is < 100 for calendar data). -/
def Timestamp.serial (t : Timestamp) : Nat :=
  ((((t.year * 100 + t.month) * 100 + t.day) * 100 + t.hour) * 100 + t.minute) * 100
    + t.second

/-- One canonical transaction row, after `load_and_clean_data`. -/
structure Txn where
  date : Timestamp
  remarks : String
  transaction_type : String
  bank_name : String
  account_number : Nat
  amount : Int
  balance : Int
deriving DecidableEq, Repr

/-- The `Month` column: `date.dt.to_period('M').astype(str)`, encoded as
`year * 100 + month` (order-isomorphic to the `"YYYY-MM"` string). -/
def monthKey (t : Txn) : Nat :=
  t.date.year * 100 + t.date.month

/-- Insert `a` into `l` in front of the first element `b` with `le a b`. -/
def ordInsert (le : α → α → Bool) (a : α) : List α → List α
  | [] => [a]
  | b :: l => if le a b then a :: b :: l else b :: ordInsert le a l

/-- Stable insertion sort; equal elements keep their relative order, which
is also what numpy's sort does on the small arrays at issue. -/
def stableSort (le : α → α → Bool) : List α → List α
  | [] => []
  | a :: l => ordInsert le a (stableSort le l)

/-- Boolean comparison of the images under `f`. -/
def leBy [LinearOrder β] (f : α → β) (a b : α) : Bool :=
  decide (f a ≤ f b)

/-- `sort_values(by=f, ascending=False)`: pandas reverses a stable ascending
argsort, so ties end up in reverse of their previous relative order. -/
def sortValuesDesc [LinearOrder β] (f : α → β) (l : List α) : List α :=
  (stableSort (leBy f) l).reverse

/-- The sorted distinct keys of `l` under `key`: the group enumeration order
of `groupby(key)` with the default `sort=True` (the comparison `le` is
passed explicitly; string keys compare by their character lists, which is
exactly how `String` order is defined). -/
def keysOf (le : β → β → Bool) [DecidableEq β] (key : α → β) (l : List α) :
    List β :=
  (stableSort le (l.map key)).dedup

/-- `l.groupby(key)[val].sum()`: one `(key, sum)` pair per distinct key, in
ascending key order. -/
def groupSum (le : β → β → Bool) [DecidableEq β] (key : α → β) (val : α → Int)
    (l : List α) : List (β × Int) :=
  (keysOf le key l).map fun m => (m, ((l.filter fun a => key a = m).map val).sum)

/-- First-match association-list lookup (a pandas index lookup; all indexes
built in this file have distinct keys). -/
def alookup [DecidableEq β] (m : β) : List (β × γ) → Option γ
  | [] => none
  | (k, v) :: l => if m = k then some v else alookup m l

/-- The sorted union of the keys of two pandas indexes (`Index.union`). -/
def unionKeys [LinearOrder β] [DecidableEq β] (a b : List (β × γ)) : List β :=
  (stableSort (leBy id)
    ((a.map fun p => p.1) ++ b.map fun p => p.1)).dedup

/-- `df[df['Transaction_Amount'] > 0].groupby(Month)['Transaction_Amount'].sum()`:
the `inc` series of `make_bar_trend` / `make_net_income_chart`. -/
def inc_series (df : List Txn) : List (Nat × Int) :=
  groupSum (leBy id) monthKey (fun t => t.amount) (df.filter fun t => 0 < t.amount)

/-- `df[df['Transaction_Amount'] < 0].groupby(Month)['Transaction_Amount'].sum().abs()`:
the `exp` series of `make_bar_trend` / `make_net_income_chart`. -/
def exp_series (df : List Txn) : List (Nat × Int) :=
  (groupSum (leBy id) monthKey (fun t => t.amount)
    (df.filter fun t => t.amount < 0)).map fun p => (p.1, |p.2|)

/-- `(inc - exp)` in `make_net_income_chart`: pandas aligned subtraction over
the sorted union of the indexes, `none` (NaN) where one side is missing. -/
def net_income_data (df : List Txn) : List (Nat × Option Int) :=
  (unionKeys (inc_series df) (exp_series df)).map fun m =>
    (m, match alookup m (inc_series df), alookup m (exp_series df) with
        | some i, some e => some (i - e)
        | _, _ => none)

/-- `trend_df` of `make_bar_trend`: outer merge of `inc` and `exp` on the
month key, missing sides filled with 0. -/
def bar_trend_data (df : List Txn) : List (Nat × Int × Int) :=
  (unionKeys (inc_series df) (exp_series df)).map fun m =>
    (m, (alookup m (inc_series df)).getD 0, (alookup m (exp_series df)).getD 0)

/-- `df.sort_values('Date', ascending=False)['Balance'].iloc[0] if not
df.empty else 0` in `get_kpi_metrics`. -/
def latest_balance (df : List Txn) : Int :=
  match sortValuesDesc (fun t : Txn => t.date.serial) df with
  | [] => 0
  | t :: _ => t.balance

/-- The six KPI scalars returned by `get_kpi_metrics`. -/
structure Kpi where
  deposit : Int
  withdrawal : Int
  balance : Int
  txnCount : Nat
  cashback : Int
  interest : Int
deriving DecidableEq, Repr

/-- `get_kpi_metrics(df)`: the early return of all zeros on an empty frame,
otherwise the six aggregates computed by the source. -/
def get_kpi_metrics (df : List Txn) : Kpi :=
  if df.isEmpty then ⟨0, 0, 0, 0, 0, 0⟩
  else
    { deposit := ((df.filter fun t => 0 < t.amount).map fun t => t.amount).sum
      withdrawal := |((df.filter fun t => t.amount < 0).map fun t => t.amount).sum|
      balance := latest_balance df
      txnCount := df.length
      cashback :=
        ((df.filter fun t => t.transaction_type = "Cashback").map fun t => t.amount).sum
      interest :=
        ((df.filter fun t => t.transaction_type = "Interest Deposit").map
          fun t => t.amount).sum }

/-- The data rows of `make_remarks_chart`: restrict to one amount sign,
group by the raw `Remarks` string, sum, take absolute values, sort by amount
descending (reverse of a stable ascending sort) and keep the first 15;
an empty subset short-circuits to an empty chart. -/
def remarks_data (df : List Txn) (is_negative : Bool) : List (String × Int) :=
  let subset :=
    if is_negative then df.filter fun t => t.amount < 0
    else df.filter fun t => 0 < t.amount
  if subset.isEmpty then []
  else
    ((groupSum (leBy String.data) (fun t => t.remarks) (fun t => t.amount)
          subset).map (fun p => (p.1, |p.2|))
      |> sortValuesDesc (fun p => p.2)).take 15

/-- The data rows of `make_heatmap`: `value_counts()` of the hour column —
one `(hour, count)` pair per hour present, sorted by count descending. -/
def heatmap_data (df : List Txn) : List (Nat × Nat) :=
  sortValuesDesc (fun p : Nat × Nat => p.2)
    ((keysOf (leBy id) (fun t => t.date.hour) df).map fun h =>
      (h, (df.filter fun t => t.date.hour = h).length))

/-- The `stats` table of `make_transaction_type_chart`: signed sum per
transaction type plus its absolute value, sorted by the absolute value
descending. -/
def type_totals_data (df : List Txn) : List (String × Int × Int) :=
  sortValuesDesc (fun p : String × Int × Int => p.2.2)
    ((groupSum (leBy String.data) (fun t => t.transaction_type)
      (fun t => t.amount) df).map fun p => (p.1, p.2, |p.2|))

/-- A dataframe object as passed around in `main`: its rows plus whether the
derived `Hour` column has been added to it (`make_heatmap` adds it in
place). -/
structure Frame where
  rows : List Txn
  hourCol : Bool
deriving DecidableEq, Repr

/-- `get_kpi_metrics` as a state function on the frame it receives: the
source only reads `df`. -/
def get_kpi_metrics_frame (f : Frame) : Frame × Kpi :=
  (f, get_kpi_metrics f.rows)

/-- `make_bar_trend` as a state function on its input frame (read-only). -/
def make_bar_trend (f : Frame) : Frame × List (Nat × Int × Int) :=
  (f, bar_trend_data f.rows)

/-- `make_net_income_chart` as a state function on its input frame
(read-only). -/
def make_net_income_chart (f : Frame) : Frame × List (Nat × Option Int) :=
  (f, net_income_data f.rows)

/-- `make_heatmap` as a state function: `df['Hour'] = df['Date'].dt.hour`
adds the `Hour` column to the very frame the caller passed in. -/
def make_heatmap (f : Frame) : Frame × List (Nat × Nat) :=
  (⟨f.rows, true⟩, heatmap_data f.rows)

/-- `make_remarks_chart` as a state function on its input frame
(read-only). -/
def make_remarks_chart (f : Frame) (is_negative : Bool) :
    Frame × List (String × Int) :=
  (f, remarks_data f.rows is_negative)

/-- `make_transaction_type_chart` as a state function on its input frame
(read-only). -/
def make_transaction_type_chart (f : Frame) : Frame × List (String × Int × Int) :=
  (f, type_totals_data f.rows)

/-- The year filter of `main`:
`raw_df[raw_df['Date'].dt.year.isin(selected_years)]`. -/
def year_filter (df : List Txn) (selected_years : List Nat) : List Txn :=
  df.filter fun t => selected_years.contains t.date.year

/-- The month filter of `main`, lines 347-352: with no month selected the
source filters by `isin([])` (an empty filtered set, not a fallback to the
year-filtered data). -/
def month_filter (year_filtered : List Txn) (selected_months : List Nat) :
    List Txn :=
  if selected_months.isEmpty then
    year_filtered.filter fun t => ([] : List Nat).contains t.date.month
  else
    year_filtered.filter fun t => selected_months.contains t.date.month

/-- The fixed vendor → canonical column rename table of
`load_and_clean_data`. -/
def rename_columns : List (String × String) :=
  [("거래 일시", "Date"), ("적요", "Remarks"), ("거래 유형", "Transaction_Type"),
   ("거래 기관", "Bank_Name"), ("계좌번호", "Account_Number"),
   ("거래 금액", "Transaction_Amount"), ("거래 후 잔액", "Balance"),
   ("메모", "Memo")]

/-- `df.rename(columns=...)`: headers found in the table are renamed, absent
source headers are silently ignored. -/
def renameCols (cols : List String) : List String :=
  cols.map fun c => (alookup c rename_columns).getD c

/-- `df.drop(columns=toDrop)` with the default `errors="raise"`: KeyError
when any listed column is absent, otherwise remove them all. -/
def dropStrict (cols toDrop : List String) : Except String (List String) :=
  if toDrop.all (fun d => cols.contains d) then
    .ok (cols.filter fun c => !(toDrop.contains c))
  else .error "KeyError"

/-- Column-level embedding of `load_and_clean_data`: rename via the fixed
table, drop `['Unnamed: 0', 'Memo']` strictly, then access
`Account_Number`, `Transaction_Type` and `Date` in source order (each access
is a KeyError when the column is absent), finally add the derived `Time`,
`DateOnly` and `Month` columns. -/
def load_and_clean_cols (cols : List String) : Except String (List String) :=
  let r := renameCols cols
  match dropStrict r ["Unnamed: 0", "Memo"] with
  | .error e => .error e
  | .ok d =>
    if "Account_Number" ∈ d then
      if "Transaction_Type" ∈ d then
        if "Date" ∈ d then .ok (d ++ ["Time", "DateOnly", "Month"])
        else .error "KeyError"
      else .error "KeyError"
    else .error "KeyError"

/-- The fixed vendor → canonical transaction-type lookup table passed to
`Series.replace` in `load_and_clean_data`. -/
def type_translation : List (String × String) :=
  [("체크카드결제", "Check Card"), ("입금", "Deposit"), ("출금", "Withdrawal"),
   ("프로모션입금", "Cashback"), ("오픈뱅킹", "Open Banking"),
   ("이자입금", "Interest Deposit"), ("ATM출금", "ATM Withdrawal"),
   ("KB국민은행", "KB Bank"), ("BC카드", "ATM Deposit")]

/-- `Series.replace` applied to one `Transaction_Type` label: labels found
in the table are replaced, all others are kept verbatim. -/
def translate_type (s : String) : String :=
  (alookup s type_translation).getD s

/-- The whole translated `Transaction_Type` column. -/
def translate_type_col (col : List String) : List String :=
  col.map translate_type

/-- Modelled from the spec's words for the amended latest-balance rule: the
element attaining the maximum of `f`, choosing the one latest in original
list order when several attain it (`none` on an empty list). -/
def lastArgMax [LinearOrder β] (f : α → β) : List α → Option α
  | [] => none
  | a :: l =>
    match lastArgMax f l with
    | none => some a
    | some m => if f m < f a then some a else some m

/-- Strict "comes before" order of the rows actually produced by
`make_remarks_chart`: strictly larger absolute amount first, and among equal
amounts the strictly larger remark key first (string keys ordered as their
character lists, which is the definition of lexicographic string order). -/
def rankBefore (p q : String × Int) : Prop :=
  q.2 < p.2 ∨ (p.2 = q.2 ∧ q.1.data < p.1.data)

/-- Ascending companion of `rankBefore` (the order before the final
reversal): strictly smaller amount first, ties in ascending key order. -/
def rankAsc (p q : String × Int) : Prop :=
  p.2 < q.2 ∨ (p.2 = q.2 ∧ p.1.data < q.1.data)

/-- Example deposit row of the spec's worked example: `2024-01`,
amount +100000. -/
def txDep : Txn :=
  ⟨⟨2024, 1, 15, 10, 0, 0⟩, "salary", "Deposit", "Toss", 1, 100000, 100000⟩

/-- Example withdrawal row of the spec's worked example: `2024-02`,
amount −40000. -/
def txWth : Txn :=
  ⟨⟨2024, 2, 10, 11, 0, 0⟩, "rent", "Withdrawal", "Toss", 1, -40000, 60000⟩

/-- First of two rows sharing one timestamp (for the latest-balance
tie-break). -/
def txTie1 : Txn :=
  ⟨⟨2024, 3, 1, 9, 0, 0⟩, "first", "Deposit", "Toss", 1, 5, 10⟩

/-- Second of two rows sharing the same timestamp as `txTie1`. -/
def txTie2 : Txn :=
  ⟨⟨2024, 3, 1, 9, 0, 0⟩, "second", "Deposit", "Toss", 1, 5, 20⟩

/-- Withdrawal with remark key `"a"` (remarks-ranking tie example). -/
def txRemA : Txn :=
  ⟨⟨2024, 1, 1, 8, 0, 0⟩, "a", "Withdrawal", "Toss", 1, -5, 95⟩

/-- Withdrawal with remark key `"b"`, tied in absolute amount with
`txRemA`. -/
def txRemB : Txn :=
  ⟨⟨2024, 1, 2, 8, 0, 0⟩, "b", "Withdrawal", "Toss", 1, -5, 90⟩

/-- A transaction of amount exactly 0. -/
def txZero : Txn :=
  ⟨⟨2024, 4, 1, 12, 0, 0⟩, "note", "Deposit", "Toss", 1, 0, 60000⟩

/-- A one-row frame whose `Hour` column has not been added yet. -/
def exFrame : Frame :=
  ⟨[txDep], false⟩

/-- Two same-month transactions, one positive and one negative (a filtered
set on which the net-income identity is exercisable). -/
def exBothSides : List Txn :=
  [⟨⟨2024, 5, 2, 9, 0, 0⟩, "pay", "Deposit", "Toss", 1, 100, 100⟩,
   ⟨⟨2024, 5, 3, 9, 0, 0⟩, "food", "Withdrawal", "Toss", 1, -40, 60⟩]

/-- The full vendor header of the source extract, index artifact included. -/
def vendor_header : List String :=
  ["Unnamed: 0", "거래 일시", "적요", "거래 유형", "거래 기관", "계좌번호",
   "거래 금액", "거래 후 잔액", "메모"]

/-! ### Association-list lookup lemmas -/

theorem alookup_mem [DecidableEq β] (m : β) (v : γ) :
    ∀ l : List (β × γ), alookup m l = some v → (m, v) ∈ l := by
  intro l
  induction l with
  | nil => intro h; cases h
  | cons p t ih =>
    obtain ⟨k, w⟩ := p
    intro h
    by_cases hm : m = k
    · subst hm
      simp only [alookup, if_pos rfl] at h
      cases h
      exact List.mem_cons_self _ _
    · simp only [alookup, if_neg hm] at h
      exact List.mem_cons_of_mem _ (ih h)

theorem alookup_none [DecidableEq β] (m : β) :
    ∀ l : List (β × γ), alookup m l = none → ∀ v, (m, v) ∉ l := by
  intro l
  induction l with
  | nil => intro _ v hv; cases hv
  | cons p t ih =>
    obtain ⟨k, w⟩ := p
    intro h v hv
    by_cases hm : m = k
    · subst hm; simp only [alookup, if_pos rfl] at h; cases h
    · simp only [alookup, if_neg hm] at h
      rcases List.mem_cons.mp hv with hv | hv
      · exact hm (congrArg Prod.fst hv)
      · exact ih h v hv

/-! ### Claim C8 -/

/-- Claim C8: after normalization every `transaction_type` value is a total
(string-valued, hence non-null) function of the vendor label: labels present
in the fixed lookup table are replaced by their canonical value, all other
labels are retained verbatim. -/
theorem claim_C8_type_translation (col : List String) :
    (translate_type_col col).length = col.length ∧
    ∀ s ∈ col,
      (∃ c, (s, c) ∈ type_translation ∧ translate_type s = c) ∨
      ((∀ c, (s, c) ∉ type_translation) ∧ translate_type s = s) := by
  constructor
  · exact List.length_map _ _
  · intro s _
    cases h : alookup s type_translation with
    | some c =>
      exact Or.inl ⟨c, alookup_mem s c _ h, by simp [translate_type, h]⟩
    | none =>
      exact Or.inr ⟨alookup_none s _ h, by simp [translate_type, h]⟩

/-- Witness for C8 at concrete labels: the mapped label `입금` and an
unmapped label pass through the translation as claimed. -/
theorem claim_C8_witness :
    (∃ c, ("입금", c) ∈ type_translation ∧ translate_type "입금" = c) ∨
    ((∀ c, ("입금", c) ∉ type_translation) ∧ translate_type "입금" = "입금") :=
  (claim_C8_type_translation ["입금"]).2 "입금" (List.mem_singleton.mpr rfl)

/-! ### Claim C5 -/

/-- Claim C5: zero selected months gives the empty filtered set (the source
filters by `isin([])`, it does not fall back to the year-filtered data), and
on that empty set all six KPI metrics are 0 and every derived series is
empty. -/
theorem claim_C5_empty_month_selection (df : List Txn) (years : List Nat) :
    month_filter (year_filter df years) [] = [] ∧
    get_kpi_metrics (month_filter (year_filter df years) []) = ⟨0, 0, 0, 0, 0, 0⟩ ∧
    bar_trend_data (month_filter (year_filter df years) []) = [] ∧
    net_income_data (month_filter (year_filter df years) []) = [] ∧
    heatmap_data (month_filter (year_filter df years) []) = [] ∧
    remarks_data (month_filter (year_filter df years) []) true = [] ∧
    remarks_data (month_filter (year_filter df years) []) false = [] ∧
    type_totals_data (month_filter (year_filter df years) []) = [] := by
  have h : month_filter (year_filter df years) [] = [] := by
    simp [month_filter]
  rw [h]
  exact ⟨rfl, rfl, rfl, rfl, rfl, rfl, rfl, rfl⟩

/-! ### Claim C9 -/

/-- Counterexample to C9 as stated: `make_heatmap` does not leave its input
frame unchanged — it adds the derived `Hour` column to it in place. -/
theorem claim_C9_counterexample : (make_heatmap exFrame).1 ≠ exFrame := by
  intro h
  exact Bool.false_ne_true (congrArg Frame.hourCol h).symm

/-- Amended C9: five of the six aggregation functions return their input
frame unchanged; `make_heatmap` adds the derived `Hour` column to its input
frame in place, though it neither adds, removes nor alters any row. -/
theorem claim_C9_amended (f : Frame) :
    (get_kpi_metrics_frame f).1 = f ∧
    (make_bar_trend f).1 = f ∧
    (make_net_income_chart f).1 = f ∧
    (make_remarks_chart f true).1 = f ∧
    (make_remarks_chart f false).1 = f ∧
    (make_transaction_type_chart f).1 = f ∧
    (make_heatmap f).1.rows = f.rows ∧
    (make_heatmap f).1 = ⟨f.rows, true⟩ :=
  ⟨rfl, rfl, rfl, rfl, rfl, rfl, rfl, rfl⟩

/-! ### Claim C10 -/

/-- Claim C10: a transaction of amount exactly 0 contributes to the KPI
transaction count, contributes to neither the deposit sum nor the
withdrawal sum (both filters are strict), and changes neither remarks
ranking (both sign subsets are strict). -/
theorem claim_C10_zero_amount (df : List Txn) (t : Txn) (h : t.amount = 0) :
    (get_kpi_metrics (t :: df)).txnCount = df.length + 1 ∧
    (get_kpi_metrics (t :: df)).deposit =
      ((df.filter fun a => 0 < a.amount).map fun a => a.amount).sum ∧
    (get_kpi_metrics (t :: df)).withdrawal =
      |((df.filter fun a => a.amount < 0).map fun a => a.amount).sum| ∧
    remarks_data (t :: df) true = remarks_data df true ∧
    remarks_data (t :: df) false = remarks_data df false := by
  have hpos : (decide (0 < t.amount)) = false := by simp [h]
  have hneg : (decide (t.amount < 0)) = false := by simp [h]
  refine ⟨?_, ?_, ?_, ?_, ?_⟩
  · simp [get_kpi_metrics]
  · simp [get_kpi_metrics, List.filter_cons, hpos]
  · simp [get_kpi_metrics, List.filter_cons, hneg]
  · simp [remarks_data, List.filter_cons, hneg]
  · simp [remarks_data, List.filter_cons, hpos]

/-- Witness for C10: adding the zero-amount row `txZero` to `[txDep]` bumps
the count to 2 while the deposit sum stays 100000 and the withdrawal sum 0. -/
theorem claim_C10_witness :
    txZero.amount = 0 ∧
    (get_kpi_metrics (txZero :: [txDep])).txnCount = 2 ∧
    (get_kpi_metrics (txZero :: [txDep])).deposit = 100000 ∧
    (get_kpi_metrics (txZero :: [txDep])).withdrawal = 0 := by
  have h := claim_C10_zero_amount [txDep] txZero rfl
  exact ⟨rfl, h.1, by rw [h.2.1]; decide, by rw [h.2.2.1]; decide⟩

/-! ### Sorting lemmas -/

theorem mem_ordInsert (le : α → α → Bool) (x a : α) :
    ∀ l : List α, a ∈ ordInsert le x l ↔ a = x ∨ a ∈ l := by
  intro l
  induction l with
  | nil => simp [ordInsert]
  | cons b t ih =>
    by_cases h : le x b
    · simp [ordInsert, h, List.mem_cons]
    · simp only [ordInsert, if_neg h, List.mem_cons, ih]
      tauto

theorem mem_stableSort (le : α → α → Bool) (a : α) :
    ∀ l : List α, a ∈ stableSort le l ↔ a ∈ l := by
  intro l
  induction l with
  | nil => simp [stableSort]
  | cons b t ih =>
    simp only [stableSort, mem_ordInsert, ih, List.mem_cons]

theorem pairwise_le_ordInsert [LinearOrder β] (f : α → β) (x : α) :
    ∀ l : List α, (l.Pairwise fun a b => f a ≤ f b) →
      (ordInsert (leBy f) x l).Pairwise fun a b => f a ≤ f b := by
  intro l
  induction l with
  | nil => intro _; simp [ordInsert]
  | cons b t ih =>
    intro h
    rw [List.pairwise_cons] at h
    by_cases hxb : leBy f x b
    · have hfxb : f x ≤ f b := by
        simpa [leBy] using hxb
      rw [ordInsert, if_pos hxb]
      refine List.pairwise_cons.mpr ⟨?_, List.pairwise_cons.mpr h⟩
      intro y hy
      rcases List.mem_cons.mp hy with hy | hy
      · exact hy ▸ hfxb
      · exact le_trans hfxb (h.1 y hy)
    · have hfbx : f b ≤ f x := by
        have := (decide_eq_false_iff_not.mp (Bool.of_not_eq_true hxb))
        simpa [leBy] using le_of_not_le (by simpa [leBy] using this)
      rw [ordInsert, if_neg hxb]
      refine List.pairwise_cons.mpr ⟨?_, ih h.2⟩
      intro y hy
      rcases (mem_ordInsert (leBy f) x y t).mp hy with hy | hy
      · exact hy ▸ hfbx
      · exact h.1 y hy

theorem pairwise_le_stableSort [LinearOrder β] (f : α → β) :
    ∀ l : List α, (stableSort (leBy f) l).Pairwise fun a b => f a ≤ f b := by
  intro l
  induction l with
  | nil => simp [stableSort]
  | cons b t ih => exact pairwise_le_ordInsert f b _ ih

theorem keysOf_nodup (le : β → β → Bool) [DecidableEq β] (key : α → β)
    (l : List α) : (keysOf le key l).Nodup :=
  List.nodup_dedup _

theorem keysOf_pairwise_le [LinearOrder κ] (f : β → κ) [DecidableEq β]
    (key : α → β) (l : List α) :
    (keysOf (leBy f) key l).Pairwise fun a b => f a ≤ f b :=
  (pairwise_le_stableSort f (l.map key)).sublist (List.dedup_sublist _)

theorem keysOf_pairwise_lt [LinearOrder κ] (f : β → κ) [DecidableEq β]
    (hinj : ∀ a b : β, f a = f b → a = b) (key : α → β) (l : List α) :
    (keysOf (leBy f) key l).Pairwise fun a b => f a < f b :=
  ((keysOf_pairwise_le f key l).and (keysOf_nodup (leBy f) key l)).imp
    fun h => lt_of_le_of_ne h.1 fun he => h.2 (hinj _ _ he)

theorem mem_keysOf (le : β → β → Bool) [DecidableEq β] (key : α → β)
    (l : List α) (b : β) : b ∈ keysOf le key l ↔ b ∈ l.map key := by
  unfold keysOf
  rw [List.mem_dedup, mem_stableSort]

theorem mem_unionKeys [LinearOrder β] [DecidableEq β] (a b : List (β × γ))
    (m : β) :
    m ∈ unionKeys a b ↔ m ∈ a.map (fun p => p.1) ∨ m ∈ b.map fun p => p.1 := by
  unfold unionKeys
  rw [List.mem_dedup, mem_stableSort, List.mem_append]

theorem unionKeys_nodup [LinearOrder β] [DecidableEq β] (a b : List (β × γ)) :
    (unionKeys a b).Nodup :=
  List.nodup_dedup _

/-! ### Lookup/alignment lemmas -/

theorem alookup_map_keys [DecidableEq β] (g : β → γ) (m : β) :
    ∀ ks : List β,
      alookup m (ks.map fun k => (k, g k)) = if m ∈ ks then some (g m) else none := by
  intro ks
  induction ks with
  | nil => simp [alookup]
  | cons a t ih =>
    by_cases h : m = a
    · subst h
      simp [alookup]
    · simp only [List.map_cons, alookup, if_neg h, ih, List.mem_cons]
      by_cases ht : m ∈ t <;> simp [ht, h]

theorem alookup_isSome [DecidableEq β] (m : β) :
    ∀ l : List (β × γ), (alookup m l).isSome ↔ m ∈ l.map fun p => p.1 := by
  intro l
  induction l with
  | nil => simp [alookup]
  | cons p t ih =>
    obtain ⟨k, v⟩ := p
    by_cases h : m = k
    · subst h
      simp [alookup]
    · simp [alookup, if_neg h, ih, h]

theorem map_fst_map_pair (g : β → γ) (ks : List β) :
    ((ks.map fun k => (k, g k)).map fun p => p.1) = ks := by
  rw [List.map_map]
  exact List.map_id ks

theorem exp_series_shape (df : List Txn) :
    exp_series df = (keysOf (leBy id) monthKey
      (df.filter fun t => t.amount < 0)).map
      fun m =>
        (m, |(((df.filter fun t => t.amount < 0).filter
                fun a => monthKey a = m).map fun t => t.amount).sum|) := by
  unfold exp_series groupSum
  rw [List.map_map]
  rfl

/-! ### Claim C1 -/

/-- Counterexample to C1 as stated: on the spec's own two-transaction
example (one month purely positive, the other purely negative) the
net-income series of the code carries a missing value (NaN) for both
months — the side absent from a month is not treated as 0, because the
source never fills the aligned subtraction `inc - exp`. -/
theorem claim_C1_counterexample :
    net_income_data [txDep, txWth] = [(202401, none), (202402, none)] ∧
    net_income_data [txDep, txWth] ≠
      [(202401, some 100000), (202402, some (-40000))] := by
  constructor
  · decide
  · decide

/-- Amended C1: the net-income series is indexed by the sorted union of the
months having a strictly positive and the months having a strictly negative
transaction; a month present on both sides is assigned `income − expense`,
a month present on one side only is assigned a missing value (NaN), and any
other month is absent from the series. -/
theorem claim_C1_amended (df : List Txn) (m : Nat) :
    alookup m (net_income_data df) =
      match alookup m (inc_series df), alookup m (exp_series df) with
      | some i, some e => some (some (i - e))
      | some _, none => some none
      | none, some _ => some none
      | none, none => none := by
  have h := alookup_map_keys
    (fun k => match alookup k (inc_series df), alookup k (exp_series df) with
      | some i, some e => some (i - e)
      | _, _ => none)
    m (unionKeys (inc_series df) (exp_series df))
  unfold net_income_data
  rw [h]
  by_cases hm : m ∈ unionKeys (inc_series df) (exp_series df)
  · rw [if_pos hm]
    rcases (mem_unionKeys _ _ m).mp hm with hmem | hmem
    · have h1 : (alookup m (inc_series df)).isSome := (alookup_isSome m _).mpr hmem
      cases he1 : alookup m (inc_series df) with
      | none => rw [he1] at h1; cases h1
      | some i =>
        cases he2 : alookup m (exp_series df) with
        | none => simp [he1, he2]
        | some e => simp [he1, he2]
    · have h2 : (alookup m (exp_series df)).isSome := (alookup_isSome m _).mpr hmem
      cases he2 : alookup m (exp_series df) with
      | none => rw [he2] at h2; cases h2
      | some e =>
        cases he1 : alookup m (inc_series df) with
        | none => simp [he1, he2]
        | some i => simp [he1, he2]
  · rw [if_neg hm]
    have h1 : alookup m (inc_series df) = none := by
      cases he1 : alookup m (inc_series df) with
      | none => rfl
      | some i =>
        exact absurd ((mem_unionKeys _ _ m).mpr
          (Or.inl ((alookup_isSome m _).mp (by rw [he1]; rfl)))) hm
    have h2 : alookup m (exp_series df) = none := by
      cases he2 : alookup m (exp_series df) with
      | none => rfl
      | some e =>
        exact absurd ((mem_unionKeys _ _ m).mpr
          (Or.inr ((alookup_isSome m _).mp (by rw [he2]; rfl)))) hm
    rw [h1, h2]

/-! ### Claim C4 -/

theorem ordInsert_ne_nil (le : α → α → Bool) (x : α) :
    ∀ l : List α, ordInsert le x l ≠ [] := by
  intro l
  cases l with
  | nil => simp [ordInsert]
  | cons b t =>
    by_cases h : le x b <;> simp [ordInsert, h]

theorem getLast?_cons_of_ne_nil (b : α) :
    ∀ l : List α, l ≠ [] → (b :: l).getLast? = l.getLast? := by
  intro l h
  cases l with
  | nil => exact absurd rfl h
  | cons c t => exact List.getLast?_cons_cons

theorem getLast?_ordInsert [LinearOrder β] (f : α → β) (x : α) :
    ∀ l : List α, (l.Pairwise fun a b => f a ≤ f b) →
      (ordInsert (leBy f) x l).getLast? =
        match l.getLast? with
        | none => some x
        | some m => if f m < f x then some x else some m := by
  intro l
  induction l with
  | nil => intro _; rfl
  | cons b t ih =>
    intro hp
    rw [List.pairwise_cons] at hp
    by_cases hxb : leBy f x b
    · have hfxb : f x ≤ f b := by simpa [leBy] using hxb
      rw [ordInsert, if_pos hxb]
      cases hm : (b :: t).getLast? with
      | none =>
        have hne : ((b :: t).getLast?).isSome = true :=
          List.getLast?_isSome.mpr (by simp)
        rw [hm] at hne
        simp at hne
      | some m =>
        have hmem : m ∈ b :: t := List.mem_of_getLast?_eq_some hm
        have hbm : f b ≤ f m := by
          rcases List.mem_cons.mp hmem with h | h
          · exact h ▸ le_refl _
          · exact hp.1 m h
        rw [List.getLast?_cons_cons, hm]
        show some m = if f m < f x then some x else some m
        rw [if_neg (not_lt.mpr (le_trans hfxb hbm))]
    · have hfbx : ¬ (f x ≤ f b) := by simpa [leBy] using hxb
      rw [ordInsert, if_neg hxb]
      rw [getLast?_cons_of_ne_nil b _ (ordInsert_ne_nil _ x t)]
      rw [ih hp.2]
      cases t with
      | nil => simp [lt_of_not_le hfbx]
      | cons c t2 => rw [List.getLast?_cons_cons]

theorem getLast?_stableSort [LinearOrder β] (f : α → β) :
    ∀ l : List α, (stableSort (leBy f) l).getLast? = lastArgMax f l := by
  intro l
  induction l with
  | nil => rfl
  | cons a t ih =>
    show (ordInsert (leBy f) a (stableSort (leBy f) t)).getLast? = _
    rw [getLast?_ordInsert f a _ (pairwise_le_stableSort f t), ih]
    rfl

theorem lastArgMax_mem_max [LinearOrder β] (f : α → β) :
    ∀ (l : List α) (t : α), lastArgMax f l = some t →
      t ∈ l ∧ ∀ u ∈ l, f u ≤ f t := by
  intro l
  induction l with
  | nil => intro t h; cases h
  | cons a l ih =>
    intro t h
    cases hl : lastArgMax f l with
    | none =>
      have hnil : l = [] := by
        cases l with
        | nil => rfl
        | cons c l2 =>
          exfalso
          simp only [lastArgMax] at hl
          cases hm : lastArgMax f l2 with
          | none => rw [hm] at hl; simp at hl
          | some w =>
            rw [hm] at hl
            by_cases hc : f w < f c <;> simp [hc] at hl
      subst hnil
      simp only [lastArgMax] at h
      obtain rfl := Option.some.inj h
      exact ⟨List.mem_singleton.mpr rfl, by
        intro u hu
        cases List.mem_singleton.mp hu
        exact le_refl _⟩
    | some m =>
      simp only [lastArgMax, hl] at h
      by_cases hma : f m < f a
      · rw [if_pos hma] at h
        obtain rfl := Option.some.inj h
        refine ⟨List.mem_cons_self _ _, ?_⟩
        intro u hu
        rcases List.mem_cons.mp hu with hu | hu
        · exact hu ▸ le_refl _
        · exact le_of_lt (lt_of_le_of_lt ((ih m hl).2 u hu) hma)
      · rw [if_neg hma] at h
        obtain rfl := Option.some.inj h
        refine ⟨List.mem_cons_of_mem _ (ih m hl).1, ?_⟩
        intro u hu
        rcases List.mem_cons.mp hu with hu | hu
        · exact hu ▸ le_of_not_lt hma
        · exact (ih m hl).2 u hu

/-- Counterexample to C4 as stated: two rows share the maximum timestamp,
and the reported latest balance is that of the SECOND row in original row
order (pandas' descending sort reverses a stable ascending sort), not of
the earliest one as the claim says. -/
theorem claim_C4_counterexample :
    txTie1.date = txTie2.date ∧
    latest_balance [txTie1, txTie2] = txTie2.balance ∧
    txTie2.balance ≠ txTie1.balance := by
  refine ⟨rfl, by decide, by decide⟩

/-- Amended C4: the latest balance is the `balance_after` of the
transaction attaining the maximum timestamp that comes LATEST in the
source's original row order (pandas reverses a stable ascending sort, so
on ties `iloc[0]` is the last occurrence of the maximum; 0 on an empty
set); `lastArgMax` is the spec-side description of that element, and the
second conjunct checks it really is a maximiser belonging to the set. -/
theorem claim_C4_amended (df : List Txn) :
    latest_balance df =
      ((lastArgMax (fun t => t.date.serial) df).map fun t => t.balance).getD 0 ∧
    ∀ t, lastArgMax (fun t => t.date.serial) df = some t →
      t ∈ df ∧ ∀ u ∈ df, u.date.serial ≤ t.date.serial := by
  constructor
  · have h1 : (stableSort (leBy fun t : Txn => t.date.serial) df).reverse.head? =
        lastArgMax (fun t => t.date.serial) df := by
      rw [List.head?_reverse]
      exact getLast?_stableSort _ df
    unfold latest_balance sortValuesDesc
    cases hr : (stableSort (leBy fun t : Txn => t.date.serial) df).reverse with
    | nil =>
      rw [hr] at h1
      rw [← h1]
      rfl
    | cons t rest =>
      rw [hr] at h1
      rw [← h1]
      rfl
  · intro t h
    exact lastArgMax_mem_max _ df t h

/-- Witness for C4 at the two tied rows: the equation holds there and the
chosen row `txTie2` is a member attaining the maximal timestamp. -/
theorem claim_C4_witness :
    latest_balance [txTie1, txTie2] =
      ((lastArgMax (fun t => t.date.serial) [txTie1, txTie2]).map
        fun t => t.balance).getD 0 ∧
    txTie2 ∈ [txTie1, txTie2] ∧
    ∀ u ∈ [txTie1, txTie2], u.date.serial ≤ txTie2.date.serial := by
  have h := claim_C4_amended [txTie1, txTie2]
  have h2 := h.2 txTie2 (by decide)
  exact ⟨h.1, h2.1, h2.2⟩

/-! ### Claims C2 and C3 (normalization column handling) -/

theorem mem_filter_not_dropped (r : List String) (c : String)
    (hc : c ∉ ["Unnamed: 0", "Memo"]) :
    (c ∈ r.filter fun c => !(["Unnamed: 0", "Memo"].contains c)) ↔ c ∈ r := by
  rw [List.mem_filter]
  simp [hc]

/-- Counterexample to C2 as stated: a raw table whose header lacks the
required vendor column `적요` (Remarks) — `rename` silently skips it, no
later step reads the `Remarks` column, and normalization succeeds with a
partially renamed table instead of failing. -/
theorem claim_C2_counterexample :
    load_and_clean_cols ["Unnamed: 0", "거래 일시", "거래 유형", "거래 기관",
        "계좌번호", "거래 금액", "거래 후 잔액", "메모"] =
      .ok ["Date", "Transaction_Type", "Bank_Name", "Account_Number",
        "Transaction_Amount", "Balance", "Time", "DateOnly", "Month"] := by
  rfl

/-- Amended C2: with the two drop targets present, normalization fails
(with a pandas `KeyError`, the spec's `SchemaError`) exactly when one of
the three columns the pipeline actually reads — `계좌번호`
(Account_Number), `거래 유형` (Transaction_Type), `거래 일시` (Date) — is
absent; when those three are present it succeeds no matter which of the
remaining vendor columns (`적요`, `거래 기관`, `거래 금액`, `거래 후 잔액`)
are missing, silently proceeding with a partially renamed table. -/
theorem claim_C2_amended (cols : List String)
    (h0 : "Unnamed: 0" ∈ renameCols cols) (h1 : "Memo" ∈ renameCols cols) :
    (("Account_Number" ∉ renameCols cols ∨ "Transaction_Type" ∉ renameCols cols ∨
        "Date" ∉ renameCols cols) →
      load_and_clean_cols cols = .error "KeyError") ∧
    ("Account_Number" ∈ renameCols cols → "Transaction_Type" ∈ renameCols cols →
      "Date" ∈ renameCols cols →
      load_and_clean_cols cols =
        .ok (((renameCols cols).filter
              fun c => !(["Unnamed: 0", "Memo"].contains c)) ++
            ["Time", "DateOnly", "Month"])) := by
  have hdrop : dropStrict (renameCols cols) ["Unnamed: 0", "Memo"] =
      .ok ((renameCols cols).filter
        fun c => !(["Unnamed: 0", "Memo"].contains c)) := by
    simp [dropStrict, h0, h1]
  constructor
  · intro habs
    simp only [load_and_clean_cols, hdrop]
    split_ifs with hA hT hD
    · exfalso
      rcases habs with h | h | h
      · exact h ((mem_filter_not_dropped _ _ (by decide)).mp hA)
      · exact h ((mem_filter_not_dropped _ _ (by decide)).mp hT)
      · exact h ((mem_filter_not_dropped _ _ (by decide)).mp hD)
    · rfl
    · rfl
    · rfl
  · intro hA hT hD
    simp only [load_and_clean_cols, hdrop]
    rw [if_pos ((mem_filter_not_dropped _ _ (by decide)).mpr hA),
      if_pos ((mem_filter_not_dropped _ _ (by decide)).mpr hT),
      if_pos ((mem_filter_not_dropped _ _ (by decide)).mpr hD)]

/-- Witness for C2: a header missing `계좌번호` makes normalization fail,
while the complete vendor header succeeds. -/
theorem claim_C2_witness :
    load_and_clean_cols ["Unnamed: 0", "거래 일시", "적요", "거래 유형",
        "거래 기관", "거래 금액", "거래 후 잔액", "메모"] = .error "KeyError" ∧
    load_and_clean_cols vendor_header =
      .ok (((renameCols vendor_header).filter
            fun c => !(["Unnamed: 0", "Memo"].contains c)) ++
          ["Time", "DateOnly", "Month"]) := by
  constructor
  · exact (claim_C2_amended _ (by decide) (by decide)).1 (Or.inl (by decide))
  · exact (claim_C2_amended _ (by decide) (by decide)).2 (by decide) (by decide)
      (by decide)

/-- Counterexample to C3 as stated: an otherwise complete header without
the index-artifact column (first case) or without the memo column (second
case) makes normalization fail — `drop` without `errors="ignore"` raises on
a missing column, so the pruning step is NOT tolerant. -/
theorem claim_C3_counterexample :
    load_and_clean_cols ["거래 일시", "적요", "거래 유형", "거래 기관",
        "계좌번호", "거래 금액", "거래 후 잔액", "메모"] = .error "KeyError" ∧
    load_and_clean_cols ["Unnamed: 0", "거래 일시", "적요", "거래 유형",
        "거래 기관", "계좌번호", "거래 금액", "거래 후 잔액"] =
      .error "KeyError" := by
  exact ⟨rfl, rfl⟩

/-- Amended C3: the column-pruning step is strict — whenever the index
artifact column `Unnamed: 0` or the (renamed) memo column `Memo` is absent,
the whole normalization fails with a `KeyError`. -/
theorem claim_C3_amended (cols : List String)
    (h : "Unnamed: 0" ∉ renameCols cols ∨ "Memo" ∉ renameCols cols) :
    load_and_clean_cols cols = .error "KeyError" := by
  have hcond : ¬("Unnamed: 0" ∈ renameCols cols ∧ "Memo" ∈ renameCols cols) := by
    rcases h with h | h
    · exact fun hc => h hc.1
    · exact fun hc => h hc.2
  simp [load_and_clean_cols, dropStrict, hcond]

/-- Witness for C3 at a concrete header lacking the index artifact
column. -/
theorem claim_C3_witness :
    load_and_clean_cols ["거래 일시", "적요", "거래 유형", "거래 기관",
        "계좌번호", "거래 금액", "거래 후 잔액", "메모"] = .error "KeyError" :=
  claim_C3_amended _ (Or.inl (by decide))

/-! ### Claim C6 -/

theorem pairwise_rank_ordInsert (x : String × Int) :
    ∀ l : List (String × Int), l.Pairwise rankAsc →
      (∀ y ∈ l, x.2 = y.2 → x.1.data < y.1.data) →
      (ordInsert (leBy fun p : String × Int => p.2) x l).Pairwise rankAsc := by
  intro l
  induction l with
  | nil => intro _ _; simp [ordInsert]
  | cons b t ih =>
    intro hp hx
    rw [List.pairwise_cons] at hp
    by_cases hxb : leBy (fun p : String × Int => p.2) x b
    · have hx2b : x.2 ≤ b.2 := by simpa [leBy] using hxb
      rw [ordInsert, if_pos hxb]
      refine List.pairwise_cons.mpr ⟨?_, List.pairwise_cons.mpr hp⟩
      intro y hy
      have hx2y : x.2 ≤ y.2 := by
        rcases List.mem_cons.mp hy with hy | hy
        · exact hy ▸ hx2b
        · rcases hp.1 y hy with h | h
          · exact le_trans hx2b (le_of_lt h)
          · exact le_trans hx2b (le_of_eq h.1)
      rcases lt_or_eq_of_le hx2y with h | h
      · exact Or.inl h
      · exact Or.inr ⟨h, hx y hy h⟩
    · have hb2x : b.2 < x.2 := lt_of_not_le (by simpa [leBy] using hxb)
      rw [ordInsert, if_neg hxb]
      refine List.pairwise_cons.mpr
        ⟨?_, ih hp.2 fun y hy => hx y (List.mem_cons_of_mem _ hy)⟩
      intro y hy
      rcases (mem_ordInsert _ x y t).mp hy with hy | hy
      · exact Or.inl (hy ▸ hb2x)
      · exact hp.1 y hy

theorem pairwise_rank_stableSort :
    ∀ l : List (String × Int),
      (l.Pairwise fun p q => p.2 = q.2 → p.1.data < q.1.data) →
      (stableSort (leBy fun p : String × Int => p.2) l).Pairwise rankAsc := by
  intro l
  induction l with
  | nil => intro _; simp [stableSort]
  | cons a t ih =>
    intro hp
    rw [List.pairwise_cons] at hp
    exact pairwise_rank_ordInsert a _ (ih hp.2)
      fun y hy => hp.1 y ((mem_stableSort _ y t).mp hy)

/-- Counterexample to C6 as stated: two remark groups tied in absolute
summed amount come out in REVERSE of the grouped (ascending-key) order —
`"b"` before `"a"` — because the descending sort reverses a stable
ascending sort; "stable original grouping order" would have put `"a"`
first. -/
theorem claim_C6_counterexample :
    remarks_data [txRemA, txRemB] true = [("b", 5), ("a", 5)] ∧
    remarks_data [txRemA, txRemB] true ≠ [("a", 5), ("b", 5)] := by
  constructor
  · decide
  · decide

/-- Amended C6: the remarks ranking is sorted by strictly descending
absolute summed amount with ties in strictly DESCENDING raw-remark-key
order (the reverse of the grouped order), has length at most 15 (fewer
rows when there are fewer distinct remarks, no padding), and every row's
key is the raw remarks string of some transaction of the requested sign. -/
theorem claim_C6_amended (df : List Txn) (b : Bool) :
    (remarks_data df b).Pairwise rankBefore ∧
    (remarks_data df b).length ≤ 15 ∧
    ∀ p ∈ remarks_data df b, ∃ t ∈ df,
      (if b then t.amount < 0 else 0 < t.amount) ∧ t.remarks = p.1 := by
  have hsub : ∀ t : Txn,
      t ∈ (if b then df.filter fun t => t.amount < 0
           else df.filter fun t => 0 < t.amount) →
      t ∈ df ∧ (if b then t.amount < 0 else 0 < t.amount) := by
    intro t ht
    cases b
    · simp only [if_neg Bool.false_ne_true] at ht ⊢
      have := List.mem_filter.mp ht
      exact ⟨this.1, by simpa using this.2⟩
    · simp only [if_pos rfl] at ht ⊢
      have := List.mem_filter.mp ht
      exact ⟨this.1, by simpa using this.2⟩
  unfold remarks_data
  set s : List Txn :=
    if b then df.filter fun t => t.amount < 0
    else df.filter fun t => 0 < t.amount with hs
  by_cases hse : s.isEmpty
  · simp [hse]
  · simp only [hse, if_neg Bool.false_ne_true]
    set grouped : List (String × Int) :=
      (groupSum (leBy String.data) (fun t => t.remarks) (fun t => t.amount)
        s).map fun p => (p.1, |p.2|) with hg
    have hgshape : grouped =
        (keysOf (leBy String.data) (fun t => t.remarks) s).map fun m =>
          (m, |((s.filter fun a => a.remarks = m).map fun t => t.amount).sum|) := by
      rw [hg]
      unfold groupSum
      rw [List.map_map]
      rfl
    have hinj : ∀ a b : String, a.data = b.data → a = b := by
      intro a b h
      cases a
      cases b
      exact congrArg String.mk h
    have hgpair : grouped.Pairwise fun p q => p.2 = q.2 → p.1.data < q.1.data := by
      rw [hgshape]
      rw [List.pairwise_map]
      refine (keysOf_pairwise_lt String.data hinj (fun t => t.remarks) s).imp ?_
      intro a b hab
      exact fun _ => hab
    have hsorted : (stableSort (leBy fun p : String × Int => p.2)
        grouped).Pairwise rankAsc := pairwise_rank_stableSort grouped hgpair
    refine ⟨?_, ?_, ?_⟩
    · refine List.Pairwise.sublist (List.take_sublist _ _) ?_
      unfold sortValuesDesc
      rw [List.pairwise_reverse]
      refine hsorted.imp ?_
      intro p q h
      rcases h with h | h
      · exact Or.inl h
      · exact Or.inr ⟨h.1.symm, h.2⟩
    · exact List.length_take_le _ _
    · intro p hp
      have hp1 : p ∈ sortValuesDesc (fun p : String × Int => p.2) grouped :=
        (List.take_sublist _ _).subset hp
      unfold sortValuesDesc at hp1
      rw [List.mem_reverse] at hp1
      rw [mem_stableSort] at hp1
      rw [hgshape] at hp1
      rcases List.mem_map.mp hp1 with ⟨m, hm, hpm⟩
      rcases List.mem_map.mp ((mem_keysOf _ _ s m).mp hm) with ⟨t, hts, htm⟩
      rcases hsub t hts with ⟨htdf, hsign⟩
      exact ⟨t, htdf, hsign, by rw [htm, ← hpm]⟩

/-- Witness for C6 at the tied two-row set: the claim instantiated there
produces a row keyed by the raw remark `"b"` of a negative transaction. -/
theorem claim_C6_witness :
    ∃ t ∈ [txRemA, txRemB],
      (if true then t.amount < 0 else 0 < t.amount) ∧ t.remarks = "b" := by
  have h := (claim_C6_amended [txRemA, txRemB] true).2.2 ("b", 5) (by decide)
  exact h

/-! ### Summation lemmas -/

theorem list_sum_nonpos : ∀ l : List Int, (∀ x ∈ l, x ≤ 0) → l.sum ≤ 0 := by
  intro l
  induction l with
  | nil => intro _; simp
  | cons a t ih =>
    intro h
    rw [List.sum_cons]
    exact add_nonpos (h a (List.mem_cons_self _ _))
      (ih fun x hx => h x (List.mem_cons_of_mem _ hx))

theorem sum_map_neg_eq (g : β → Int) :
    ∀ ks : List β, (ks.map fun m => -(g m)).sum = -((ks.map g).sum) := by
  intro ks
  induction ks with
  | nil => simp
  | cons a t ih => simp [ih]; ring

theorem sum_map_sub_eq (f g : β → Int) :
    ∀ ks : List β,
      (ks.map fun m => f m - g m).sum = (ks.map f).sum - (ks.map g).sum := by
  intro ks
  induction ks with
  | nil => simp
  | cons a t ih => simp [ih]; ring

theorem sum_map_ite [DecidableEq β] (A : Int) (g : β → Int) (k : β) :
    ∀ ks : List β, ks.Nodup → k ∈ ks →
      (ks.map fun m => if m = k then A else g m).sum =
        A + (ks.map g).sum - g k := by
  intro ks
  induction ks with
  | nil => intro _ h; cases h
  | cons a t ih =>
    intro hnd hk
    have hnd' := List.nodup_cons.mp hnd
    rcases List.mem_cons.mp hk with hk | hk
    · subst hk
      rw [List.map_cons, List.sum_cons, if_pos rfl]
      have hcongr : ∀ m ∈ t, (if m = k then A else g m) = g m := by
        intro m hm
        rw [if_neg]
        intro he
        exact hnd'.1 (he ▸ hm)
      rw [List.map_congr_left hcongr, List.map_cons, List.sum_cons]
      ring
    · have hak : a ≠ k := fun he => hnd'.1 (he ▸ hk)
      rw [List.map_cons, List.sum_cons, if_neg hak, ih hnd'.2 hk,
        List.map_cons, List.sum_cons]
      ring

theorem sum_groups [DecidableEq β] (key : α → β) (val : α → Int) :
    ∀ (l : List α) (ks : List β), ks.Nodup → (∀ t ∈ l, key t ∈ ks) →
      (ks.map fun m => ((l.filter fun a => key a = m).map val).sum).sum =
        (l.map val).sum := by
  intro l
  induction l with
  | nil =>
    intro ks _ _
    simp
  | cons t rest ih =>
    intro ks hnd hcov
    have h1 : ∀ m ∈ ks,
        (((t :: rest).filter fun a => key a = m).map val).sum =
          if m = key t
          then val t + ((rest.filter fun a => key a = m).map val).sum
          else ((rest.filter fun a => key a = m).map val).sum := by
      intro m _
      by_cases h : key t = m
      · rw [if_pos h.symm]
        simp [List.filter_cons, h]
      · rw [if_neg fun he => h he.symm]
        simp [List.filter_cons, h]
    rw [List.map_congr_left h1]
    have h2 : ∀ m ∈ ks,
        (if m = key t
         then val t + ((rest.filter fun a => key a = m).map val).sum
         else ((rest.filter fun a => key a = m).map val).sum) =
          (if m = key t
           then val t + ((rest.filter fun a => key a = key t).map val).sum
           else ((rest.filter fun a => key a = m).map val).sum) := by
      intro m _
      by_cases h : m = key t
      · rw [if_pos h, if_pos h, h]
      · rw [if_neg h, if_neg h]
    rw [List.map_congr_left h2]
    rw [sum_map_ite _ _ _ ks hnd (hcov t (List.mem_cons_self _ _))]
    rw [ih ks hnd fun u hu => hcov u (List.mem_cons_of_mem _ hu)]
    rw [List.map_cons, List.sum_cons]
    ring

theorem alookup_eq_none [DecidableEq β] (m : β) (l : List (β × γ)) :
    alookup m l = none ↔ m ∉ l.map fun p => p.1 := by
  constructor
  · intro h hm
    have hs := (alookup_isSome m l).mpr hm
    rw [h] at hs
    simp at hs
  · intro hm
    cases h : alookup m l with
    | none => rfl
    | some v =>
      exact absurd ((alookup_isSome m l).mp (by rw [h]; rfl)) hm

theorem alookup_sum [DecidableEq β] :
    ∀ (al : List (β × Int)) (ks : List β), ks.Nodup →
      (al.map fun p => p.1).Nodup → (∀ p ∈ al, p.1 ∈ ks) →
      (ks.map fun m => (alookup m al).getD 0).sum =
        (al.map fun p => p.2).sum := by
  intro al
  induction al with
  | nil =>
    intro ks _ _ _
    simp [alookup]
  | cons p rest ih =>
    obtain ⟨k, v⟩ := p
    intro ks hnd hkeys hcov
    rw [List.map_cons] at hkeys
    have hkeys' := List.nodup_cons.mp hkeys
    have hk : k ∈ ks := hcov (k, v) (List.mem_cons_self _ _)
    have h1 : ∀ m ∈ ks,
        (alookup m ((k, v) :: rest)).getD 0 =
          if m = k then v else (alookup m rest).getD 0 := by
      intro m _
      by_cases h : m = k
      · simp [alookup, h]
      · simp [alookup, h]
    rw [List.map_congr_left h1]
    rw [sum_map_ite v _ k ks hnd hk]
    have hg : (alookup k rest).getD 0 = 0 := by
      rw [(alookup_eq_none k rest).mpr hkeys'.1]
      rfl
    rw [hg, ih ks hnd hkeys'.2 fun q hq => hcov q (List.mem_cons_of_mem _ hq)]
    rw [List.map_cons, List.sum_cons]
    ring

theorem filterMap_map_of_some (g : β → Option γ) (h : β → γ) :
    ∀ U : List β, (∀ m ∈ U, g m = some (h m)) → U.filterMap g = U.map h := by
  intro U
  induction U with
  | nil => intro _; rfl
  | cons a t ih =>
    intro hsome
    rw [List.filterMap_cons, hsome a (List.mem_cons_self _ _), List.map_cons,
      ih fun m hm => hsome m (List.mem_cons_of_mem _ hm)]

theorem kpi_deposit (df : List Txn) :
    (get_kpi_metrics df).deposit =
      ((df.filter fun t => 0 < t.amount).map fun t => t.amount).sum := by
  cases df with
  | nil => rfl
  | cons a l => rfl

theorem kpi_withdrawal (df : List Txn) :
    (get_kpi_metrics df).withdrawal =
      |((df.filter fun t => t.amount < 0).map fun t => t.amount).sum| := by
  cases df with
  | nil => rfl
  | cons a l => rfl

theorem inc_series_shape (df : List Txn) :
    inc_series df = (keysOf (leBy id) monthKey
      (df.filter fun t => 0 < t.amount)).map fun m =>
        (m, (((df.filter fun t => 0 < t.amount).filter
            fun a => monthKey a = m).map fun t => t.amount).sum) := rfl

/-! ### Claim C7 -/

/-- Counterexample to C7 as stated: on the spec's two-transaction example
the KPI difference is 60000, but the net-income series consists of two
missing values (each month has only one side), so its sum — missing values
skipped, as pandas sums — is 0. -/
theorem claim_C7_counterexample :
    (get_kpi_metrics [txDep, txWth]).deposit -
        (get_kpi_metrics [txDep, txWth]).withdrawal = 60000 ∧
    ((net_income_data [txDep, txWth]).filterMap fun p => p.2).sum = 0 ∧
    (60000 : Int) ≠ 0 := by
  refine ⟨by decide, by decide, by decide⟩

/-- Amended C7: the identity `KPI.deposit − KPI.withdrawal = Σ(net-income
series)` holds for every filtered set whose net-income series has no
missing value — that is, whenever every month with a strictly positive
transaction also has a strictly negative one and conversely. -/
theorem claim_C7_amended (df : List Txn)
    (hall : ∀ p ∈ net_income_data df, p.2 ≠ none) :
    (get_kpi_metrics df).deposit - (get_kpi_metrics df).withdrawal =
      ((net_income_data df).filterMap fun p => p.2).sum := by
  have hnet : net_income_data df =
      (unionKeys (inc_series df) (exp_series df)).map fun m =>
        (m, match alookup m (inc_series df), alookup m (exp_series df) with
            | some i, some e => some (i - e)
            | _, _ => none) := rfl
  have hfm : ((net_income_data df).filterMap fun p => p.2) =
      (unionKeys (inc_series df) (exp_series df)).filterMap fun m =>
        match alookup m (inc_series df), alookup m (exp_series df) with
        | some i, some e => some (i - e)
        | _, _ => none := by
    rw [hnet, List.filterMap_map]
    rfl
  have hsome : ∀ m ∈ unionKeys (inc_series df) (exp_series df),
      (match alookup m (inc_series df), alookup m (exp_series df) with
        | some i, some e => some (i - e)
        | _, _ => none) =
        some ((alookup m (inc_series df)).getD 0 -
          (alookup m (exp_series df)).getD 0) := by
    intro m hm
    have hne : (match alookup m (inc_series df), alookup m (exp_series df) with
        | some i, some e => some (i - e)
        | _, _ => none) ≠ (none : Option Int) := by
      have hmem : (m, (match alookup m (inc_series df),
          alookup m (exp_series df) with
          | some i, some e => some (i - e)
          | _, _ => none)) ∈ net_income_data df := by
        rw [hnet]
        exact List.mem_map_of_mem _ hm
      exact hall _ hmem
    revert hne
    cases h1 : alookup m (inc_series df) with
    | none =>
      cases h2 : alookup m (exp_series df) with
      | none => intro hne; exact absurd rfl hne
      | some e => intro hne; exact absurd rfl hne
    | some i =>
      cases h2 : alookup m (exp_series df) with
      | none => intro hne; exact absurd rfl hne
      | some e => intro _; rfl
  rw [hfm, filterMap_map_of_some _ _ _ hsome, sum_map_sub_eq]
  have hinck : ((inc_series df).map fun p => p.1) =
      keysOf (leBy id) monthKey (df.filter fun t => 0 < t.amount) := by
    rw [inc_series_shape df]
    exact map_fst_map_pair _ _
  have hexpk : ((exp_series df).map fun p => p.1) =
      keysOf (leBy id) monthKey (df.filter fun t => t.amount < 0) := by
    rw [exp_series_shape df]
    exact map_fst_map_pair _ _
  have hsum_inc : ((unionKeys (inc_series df) (exp_series df)).map fun m =>
      (alookup m (inc_series df)).getD 0).sum =
      ((inc_series df).map fun p => p.2).sum := by
    apply alookup_sum
    · exact unionKeys_nodup _ _
    · rw [hinck]
      exact keysOf_nodup _ _ _
    · intro p hp
      exact (mem_unionKeys _ _ _).mpr (Or.inl (List.mem_map_of_mem _ hp))
  have hsum_exp : ((unionKeys (inc_series df) (exp_series df)).map fun m =>
      (alookup m (exp_series df)).getD 0).sum =
      ((exp_series df).map fun p => p.2).sum := by
    apply alookup_sum
    · exact unionKeys_nodup _ _
    · rw [hexpk]
      exact keysOf_nodup _ _ _
    · intro p hp
      exact (mem_unionKeys _ _ _).mpr (Or.inr (List.mem_map_of_mem _ hp))
  have hvals_inc : ((inc_series df).map fun p => p.2).sum =
      ((df.filter fun t => 0 < t.amount).map fun t => t.amount).sum := by
    rw [inc_series_shape df, List.map_map]
    exact sum_groups monthKey (fun t => t.amount) _ _ (keysOf_nodup _ _ _)
      fun t ht => (mem_keysOf _ _ _ _).mpr (List.mem_map_of_mem monthKey ht)
  have hvals_exp : ((exp_series df).map fun p => p.2).sum =
      -(((df.filter fun t => t.amount < 0).map fun t => t.amount).sum) := by
    rw [exp_series_shape df, List.map_map]
    have hptw : ∀ m ∈ keysOf (leBy id) monthKey
        (df.filter fun t => t.amount < 0),
        ((fun p : Nat × Int => p.2) ∘ fun m =>
          (m, |(((df.filter fun t => t.amount < 0).filter
              fun a => monthKey a = m).map fun t => t.amount).sum|)) m =
          -((((df.filter fun t => t.amount < 0).filter
              fun a => monthKey a = m).map fun t => t.amount).sum) := by
      intro m _
      show |(((df.filter fun t => t.amount < 0).filter
          fun a => monthKey a = m).map fun t => t.amount).sum| = _
      apply abs_of_nonpos
      apply list_sum_nonpos
      intro x hx
      rcases List.mem_map.mp hx with ⟨t, ht, rfl⟩
      have ht2 := (List.mem_filter.mp ht).1
      exact le_of_lt (by simpa using (List.mem_filter.mp ht2).2)
    rw [List.map_congr_left hptw, sum_map_neg_eq]
    rw [sum_groups monthKey (fun t => t.amount) _ _ (keysOf_nodup _ _ _)
      fun t ht => (mem_keysOf _ _ _ _).mpr (List.mem_map_of_mem monthKey ht)]
  have hnegel : ∀ x ∈ (df.filter fun t => t.amount < 0).map fun t => t.amount,
      x ≤ 0 := by
    intro x hx
    rcases List.mem_map.mp hx with ⟨t, ht, rfl⟩
    exact le_of_lt (by simpa using (List.mem_filter.mp ht).2)
  have habs : |((df.filter fun t => t.amount < 0).map
      fun t => t.amount).sum| =
      -(((df.filter fun t => t.amount < 0).map fun t => t.amount).sum) :=
    abs_of_nonpos (list_sum_nonpos _ hnegel)
  rw [hsum_inc, hsum_exp, hvals_inc, hvals_exp, kpi_deposit df,
    kpi_withdrawal df, habs]

/-- Witness for C7: a month having both a positive and a negative
transaction satisfies the no-missing-value hypothesis, and the identity
holds there (100 − 40 = 60). -/
theorem claim_C7_witness :
    (∀ p ∈ net_income_data exBothSides, p.2 ≠ none) ∧
    (get_kpi_metrics exBothSides).deposit -
        (get_kpi_metrics exBothSides).withdrawal =
      ((net_income_data exBothSides).filterMap fun p => p.2).sum :=
  ⟨by decide, claim_C7_amended exBothSides (by decide)⟩
